import Mathlib

/-!
Shallow embedding of the husio/go-git object store (src/git.go, src/cmd.go,
src/unnamed/part_000) in Lean 4.

Modelling conventions:
  * Go byte slices and strings are `List Nat` (each element a byte value).
  * Filesystem paths are lists of components (`List (List Nat)`), always
    absolute; `filepath.Abs` is modelled by taking already-absolute input.
  * The zlib compression wrapper is modelled as transparent: the object
    store maps a 20-byte identifier to the decompressed frame bytes
    (`compress`/`decompress` are an external library inverse pair).
  * `crypto/sha1.Sum` is an external library function; it is modelled as an
    explicit function parameter `H : List Nat -> List Nat`.  Theorems that
    need the 20-byte output length of SHA-1 take it as a hypothesis.
  * Machine integers are `Nat`/`Int`; the `os.FileMode(n)` conversion of an
    `int` to `uint32` is Euclidean reduction mod 2 ^ 32.
  * Loops whose termination is not structural (`for {}` loops) are given a
    fuel parameter; `none`/a dedicated constructor marks fuel exhaustion,
    which the top-level entry points make unreachable by supplying enough
    fuel.
  * Go `panic` is a dedicated result constructor, not an error value.
-/

namespace GoGit

abbrev Comp := List Nat
abbrev FilePath' := List Comp

/-- Result type standing for Go's `(value, error)` pairs. -/
inductive Res (ε α : Type) where
  | ok (a : α)
  | err (e : ε)
deriving DecidableEq, Repr

/-- First-match association-list lookup (Go map read / file lookup). -/
def lookupA {α β : Type} [DecidableEq α] : List (α × β) → α → Option β
  | [], _ => none
  | (k, v) :: rest, key => if k = key then some v else lookupA rest key

/-- Models `bufio.Reader.ReadString(delim)`: returns the bytes before the
first occurrence of `b` and the remaining bytes after it; `none` when the
delimiter is absent (Go returns the partial data together with `io.EOF`,
and every call site in the source discards the partial data on `io.EOF`). -/
def readStringUntil (b : Nat) : List Nat → Option (List Nat × List Nat)
  | [] => none
  | c :: rest =>
    if c = b then some ([], rest)
    else
      match readStringUntil b rest with
      | none => none
      | some (tok, r) => some (c :: tok, r)

/-- Digit-by-digit accumulator for `strconv.Atoi`'s digit run. -/
def parseDigitsAux (acc : Nat) : List Nat → Option Nat
  | [] => some acc
  | c :: rest =>
    if 48 ≤ c ∧ c ≤ 57 then parseDigitsAux (acc * 10 + (c - 48)) rest
    else none

/-- A non-empty all-decimal-digit run, as required by `strconv.Atoi`. -/
def parseDigits (l : List Nat) : Option Nat :=
  if l = [] then none else parseDigitsAux 0 l

/-- Models `strconv.Atoi`'s syntax: optional sign followed by one or more
decimal digits.  The model is arbitrary precision; Go's `Atoi` additionally
fails with `ErrRange` for values outside the 64-bit `int` range, so the
two agree exactly on syntactically valid tokens whose value is below
`2 ^ 63` and on all syntactically invalid tokens.  Size tokens written by
the store itself are always in range (a Go slice length is an `int`), and
every theorem about a payload-controlled mode token restricts its
quantifier to values below `2 ^ 63`, staying inside the region where the
model and `strconv.Atoi` agree. -/
def atoiZ : List Nat → Option Int
  | [] => none
  | c :: rest =>
    if c = 43 then (parseDigits rest).map (fun n => (n : Int))
    else if c = 45 then (parseDigits rest).map (fun n => -(n : Int))
    else (parseDigits (c :: rest)).map (fun n => (n : Int))

/-- ASCII decimal digits of `n`, most significant first (fuel-based; fuel
`n + 1` always suffices).  Models `fmt.Fprintf` with verb `%d`. -/
def natDecAux : Nat → Nat → List Nat
  | 0, _ => []
  | fuel + 1, n => if n < 10 then [48 + n] else natDecAux fuel (n / 10) ++ [48 + n % 10]

/-- ASCII decimal representation of a natural number. -/
def natDec (n : Nat) : List Nat := natDecAux (n + 1) n

/-- Go conversion of an `int` to `uint32` (`os.FileMode(n)`). -/
def intToUInt32 (z : Int) : Nat := (z % (2 ^ 32 : Int)).toNat

/-- Value of one ASCII hex digit, as accepted by `encoding/hex`. -/
def hexDigitVal (c : Nat) : Option Nat :=
  if 48 ≤ c ∧ c ≤ 57 then some (c - 48)
  else if 97 ≤ c ∧ c ≤ 102 then some (c - 87)
  else if 65 ≤ c ∧ c ≤ 70 then some (c - 55)
  else none

/-- Models `hex.DecodeString`: fails on odd length or a non-hex byte. -/
def hexDecode : List Nat → Option (List Nat)
  | [] => some []
  | [_] => none
  | a :: b :: rest =>
    match hexDigitVal a, hexDigitVal b with
    | some x, some y =>
      match hexDecode rest with
      | some tail => some ((x * 16 + y) :: tail)
      | none => none
    | _, _ => none

/-! ### Byte constants from the source -/

def blobK : List Nat := [98, 108, 111, 98]
def treeK : List Nat := [116, 114, 101, 101]
def commitK : List Nat := [99, 111, 109, 109, 105, 116]
def tagK : List Nat := [116, 97, 103]
def gitC : Comp := [46, 103, 105, 116]
def branchesC : Comp := [98, 114, 97, 110, 99, 104, 101, 115]
def objectsC : Comp := [111, 98, 106, 101, 99, 116, 115]
def refsC : Comp := [114, 101, 102, 115]
def tagsC : Comp := [116, 97, 103, 115]
def headsC : Comp := [104, 101, 97, 100, 115]
def descriptionC : Comp := [100, 101, 115, 99, 114, 105, 112, 116, 105, 111, 110]
def headC : Comp := [72, 69, 65, 68]
def configC : Comp := [99, 111, 110, 102, 105, 103]

/-- `defaultDescription = "Unnamed repository.\n"` -/
def defaultDescriptionB : List Nat :=
  [85, 110, 110, 97, 109, 101, 100, 32, 114, 101, 112, 111, 115, 105, 116, 111, 114, 121, 46, 10]

/-- `defaultHEAD = "ref: refs/heads/master\n"` -/
def defaultHEADB : List Nat :=
  [114, 101, 102, 58, 32, 114, 101, 102, 115, 47, 104, 101, 97, 100, 115, 47, 109, 97, 115, 116, 101, 114, 10]

/-- `defaultConfig` (the fixed INI text from git.go). -/
def defaultConfigB : List Nat :=
  [91, 99, 111, 114, 101, 93, 10, 114, 101, 112, 111, 115, 105, 116, 111, 114, 121, 102, 111,
   114, 109, 97, 116, 118, 101, 114, 115, 105, 111, 110, 32, 61, 32, 48, 10, 102, 105, 108,
   101, 109, 111, 100, 101, 32, 61, 32, 102, 97, 108, 115, 101, 10, 98, 97, 114, 101, 32, 61,
   32, 102, 97, 108, 115, 101, 10]

/-! ### Error kinds (the `fmt.Errorf` context strings are collapsed to kinds) -/

inductive TreeErr where
  | invalidMode
  | readPath
  | readSha
  | outOfFuel
deriving DecidableEq, Repr

inductive GitErr where
  | errExist
  | errNotDir
  | errNotExist
  | errIsDir
  | notGitDir
  | alreadyExists
  | invalidHashLength
  | notFound
  | readKind
  | unknownKind
  | readSize
  | invalidSize
  | lengthMismatch
  | deserialize (e : TreeErr)
  | invalidHex
  | unexpectedKind
deriving DecidableEq, Repr

/-! ### Object model (git.go lines 258-390) -/

/-- `TreeLeaf` from git.go: `Mode os.FileMode; Path string; Sha []byte`. -/
structure TreeLeaf where
  mode : Nat
  path : List Nat
  sha : List Nat
deriving DecidableEq, Repr

/-- `bufio.NewReader`'s default buffer size. -/
def bufSize : Nat := 4096

/-- The `bufio.Reader` state over a fixed in-memory input is a pair of
stream positions `(r, w)`: the buffer holds `input[r..w)`, with
`w - r ≤ bufSize`.  A fresh reader starts at `(0, 0)`.  `fill` compacts
the buffer and tops it up from the underlying `bytes.Reader` (which always
returns everything asked for, up to the end of the input), extending the
window to `min (r + bufSize) input.length` where `r` is the read position
at the time of the fill.

`bufReadString b input r w` models `bufio.Reader.ReadString(b)` from state
`(r, w)`: `ReadSlice` searches the current window, and while the delimiter
is not found it fills (compaction base = current `r`) or — when the window
is full — hands the whole window to `collectFragments` and continues from
the window end.  The windows scanned are therefore
`[r + k*bufSize, min (r + (k+1)*bufSize) input.length)`, so when the
delimiter sits at stream position `g = r + tok.length`:
  * `g < w`: found without filling, the window end stays `w`;
  * otherwise the window end becomes
    `min (r + (tok.length / bufSize + 1) * bufSize) input.length`.
The full token before the delimiter is returned either way (`ReadString`
is fragmentation-safe).  `none` models `io.EOF` (no delimiter anywhere);
every call site in the source discards the partial data then. -/
def bufReadString (b : Nat) (input : List Nat) (r w : Nat) :
    Option (List Nat × Nat × Nat) :=
  match readStringUntil b (input.drop r) with
  | none => none
  | some (tok, _) =>
    if r + tok.length < w then some (tok, r + tok.length + 1, w)
    else
      some (tok, r + tok.length + 1,
        min (r + (tok.length / bufSize + 1) * bufSize) input.length)

/-- Models one `bufio.Reader.Read` into a fresh `count`-byte destination
(`count < bufSize`, so the large-read-bypass path is never taken) from
state `(r, w)`:
  * buffer non-empty (`r < w`): copy `min count (w - r)` bytes from the
    window — a short read when the window holds fewer than `count` bytes,
    with no refill and no error, even if more input remains underneath;
  * buffer empty with input remaining: one fill, then copy
    `min count (w' - r)` from the new window;
  * buffer empty at end of input: `(0, io.EOF)`, modelled as `none`. -/
def bufRead (count : Nat) (input : List Nat) (r w : Nat) :
    Option (List Nat × Nat × Nat) :=
  if r < w then
    some ((input.drop r).take (min count (w - r)), r + min count (w - r), w)
  else if r < input.length then
    some ((input.drop r).take (min count (min (r + bufSize) input.length - r)),
      r + min count (min (r + bufSize) input.length - r),
      min (r + bufSize) input.length)
  else none

/-- Loop body of `TreeObject.Deserialize` over reader state `(r, w)`.
Each iteration reads a decimal mode up to a space (`io.EOF` there ends the
loop successfully), the path up to a NUL, then performs one
`bufio.Reader.Read` into a zeroed 20-byte buffer: the returned count is
ignored by the source, so a short read leaves the identifier zero-padded
and the stream position wherever the read stopped.  `outOfFuel` is
unreachable from `treeObjectDeserialize`, whose fuel exceeds the input
length while every iteration advances the read position by at least two
bytes. -/
def treeObjectDeserializeAux (input : List Nat) :
    Nat → Nat → Nat → List TreeLeaf → Res TreeErr (List TreeLeaf)
  | 0, _, _, _ => .err .outOfFuel
  | fuel + 1, r, w, acc =>
    match bufReadString 32 input r w with
    | none => .ok acc
    | some (modeTok, r1, w1) =>
      match atoiZ modeTok with
      | none => .err .invalidMode
      | some n =>
        match bufReadString 0 input r1 w1 with
        | none => .err .readPath
        | some (name, r2, w2) =>
          match bufRead 20 input r2 w2 with
          | none => .err .readSha
          | some (shaBytes, r3, w3) =>
            treeObjectDeserializeAux input fuel r3 w3
              (acc ++ [⟨intToUInt32 n, name,
                shaBytes ++ List.replicate (20 - shaBytes.length) 0⟩])

/-- `TreeObject.Deserialize` (git.go lines 335-367): a fresh
`bufio.Reader` over `bytes.NewReader(raw)` starts at state `(0, 0)`. -/
def treeObjectDeserialize (raw : List Nat) : Res TreeErr (List TreeLeaf) :=
  treeObjectDeserializeAux raw (raw.length + 1) 0 0 []

/-- One leaf of `TreeObject.Serialize`: `fmt.Fprintf("%d %s\x00%s", ...)`. -/
def treeSerializeLeaf (l : TreeLeaf) : List Nat :=
  natDec l.mode ++ 32 :: (l.path ++ 0 :: l.sha)

/-- `TreeObject.Serialize` (git.go lines 369-377); writing to a
`bytes.Buffer` cannot fail, so the result is the byte list itself. -/
def treeObjectSerialize : List TreeLeaf → List Nat
  | [] => []
  | l :: rest => treeSerializeLeaf l ++ treeObjectSerialize rest

/-- `CommitObject` from git.go: `Header map[string][]string; Comment string`.
The Go map is modelled as an insertion-ordered association list. -/
structure CommitObj where
  header : List (Comp × List Comp)
  comment : List Nat
deriving DecidableEq, Repr

/-- `header[key] = append(header[key], string(buf))`. -/
def headerAppend (header : List (Comp × List Comp)) (key val : Comp) : List (Comp × List Comp) :=
  match header with
  | [] => [(key, [val])]
  | (k, vs) :: rest =>
    if k = key then (k, vs ++ [val]) :: rest else (k, vs) :: headerAppend rest key val

/-- Byte-by-byte loop of `CommitObject.Deserialize` (git.go lines 268-319),
with the pending `key`, growable `buf` and accumulated `header` as explicit
state.  A `'\n'` peeks one byte ahead; a peek at end of input fails in Go
and takes the non-terminating branch. -/
def commitDesAux : List Nat → Comp → Comp → List (Comp × List Comp) → CommitObj
  | [], key, buf, header =>
    ⟨if key ≠ [] ∧ buf ≠ [] then headerAppend header key buf else header, []⟩
  | 32 :: rest, key, buf, header =>
    if key = [] then commitDesAux rest buf [] header
    else commitDesAux rest key (buf ++ [32]) header
  | 10 :: rest, key, buf, header =>
    match rest with
    | 10 :: rest2 => ⟨headerAppend header key buf, rest2⟩
    | _ => commitDesAux rest [] [] (headerAppend header key buf)
  | c :: rest, key, buf, header => commitDesAux rest key (buf ++ [c]) header

/-- `CommitObject.Deserialize`; reading from an in-memory buffer never
fails, so the function is total. -/
def commitObjectDeserialize (raw : List Nat) : CommitObj :=
  commitDesAux raw [] [] []

/-- Decoded object value (the `Object` interface's three implemented
variants; `BlobObject.Deserialize` is the identity on the payload). -/
inductive Obj where
  | blob (data : List Nat)
  | tree (leafs : List TreeLeaf)
  | commit (c : CommitObj)
deriving DecidableEq, Repr

/-- Tags of the `objects` constructor registry (git.go lines 251-256). -/
inductive CtorTag where
  | commitC
  | blobC
  | treeC
  | tagC
deriving DecidableEq, Repr

/-- The `objects` map: kind string to constructor.  The `"tag"` entry is a
constructor that panics when invoked. -/
def objCtor (kind : List Nat) : Option CtorTag :=
  if kind = commitK then some .commitC
  else if kind = blobK then some .blobC
  else if kind = treeK then some .treeC
  else if kind = tagK then some .tagC
  else none

/-- Outcome of `Repository.ReadObject`: a decoded object, a returned error,
or a Go panic raised while producing the object. -/
inductive ROut where
  | ok (o : Obj)
  | err (e : GitErr)
  | panicked (msg : String)
deriving DecidableEq, Repr

/-- The object store: 20-byte identifier to stored frame bytes (the zlib
layer is modelled as transparent, see the header comment). -/
abbrev Store := List (List Nat × List Nat)

/-- The frame built by `WriteObject`: `fmt.Fprintf("%s %d\x00", kind,
len(content))` followed by the payload. -/
def frameBytes (kind payload : List Nat) : List Nat :=
  kind ++ 32 :: (natDec payload.length ++ 0 :: payload)

/-- `Repository.WriteObject` (git.go lines 198-233): builds the frame,
hashes it with `H` (standing for `sha1.Sum`), and stores the frame under
the returned identifier.  Filesystem failures are outside the model; the
identifier is computed before any filesystem access. -/
def WriteObject (H : List Nat → List Nat) (store : Store) (kind content : List Nat) :
    List Nat × Store :=
  let frame := frameBytes kind content
  let sha := H frame
  (sha, (sha, frame) :: store)

/-- `Repository.ReadObject` (git.go lines 144-196): length check, object
file lookup, kind token up to a space, constructor registry lookup, declared
size up to a NUL, exact length check, then dispatch to the object parser.
Invoking the `"tag"` constructor panics. -/
def ReadObject (store : Store) (sha : List Nat) : ROut :=
  if sha.length ≠ 20 then .err .invalidHashLength
  else
    match lookupA store sha with
    | none => .err .notFound
    | some frame =>
      match readStringUntil 32 frame with
      | none => .err .readKind
      | some (kind, rest) =>
        match objCtor kind with
        | none => .err .unknownKind
        | some ctor =>
          match readStringUntil 0 rest with
          | none => .err .readSize
          | some (ssize, content) =>
            match atoiZ ssize with
            | none => .err .invalidSize
            | some size =>
              if size ≠ (content.length : Int) then .err .lengthMismatch
              else
                match ctor with
                | .commitC => .ok (.commit (commitObjectDeserialize content))
                | .blobC => .ok (.blob content)
                | .treeC =>
                  match treeObjectDeserialize content with
                  | .ok t => .ok (.tree t)
                  | .err e => .err (.deserialize e)
                | .tagC => .panicked "todo: tag"

/-! ### Filesystem model and the path resolver (git.go lines 20-142, isDir) -/

/-- A flat filesystem: the set of existing directories and the files with
their contents.  The root `[]` always exists as a directory. -/
structure FS where
  dirs : List FilePath'
  files : List (FilePath' × List Nat)
deriving DecidableEq, Repr

/-- `isDir` from the repository (os.Stat based): true when the path is an
existing directory; a missing path or a regular file yields false, and the
model has no other stat failures. -/
def isDir (fs : FS) (p : FilePath') : Bool :=
  p.isEmpty || fs.dirs.contains p

def isFile (fs : FS) (p : FilePath') : Bool :=
  (fs.files.map Prod.fst).contains p

/-- Walks the path components from the root, modelling `os.MkdirAll`: every
missing intermediate directory is created; a component that exists as a
regular file fails with `ENOTDIR`.  Note that a path that already exists as
a directory succeeds with `nil` — `os.MkdirAll` never reports
`os.ErrExist` for a pre-existing directory. -/
def osMkdirAllAux (fs : FS) (cur : FilePath') : List Comp → Res GitErr FS
  | [] => .ok fs
  | c :: rest =>
    let nxt := cur ++ [c]
    if isFile fs nxt then .err .errNotDir
    else
      let fs' := if isDir fs nxt then fs else { fs with dirs := fs.dirs ++ [nxt] }
      osMkdirAllAux fs' nxt rest

/-- `os.MkdirAll` (permissions are outside the model). -/
def osMkdirAll (fs : FS) (p : FilePath') : Res GitErr FS :=
  osMkdirAllAux fs [] p

def setFile (files : List (FilePath' × List Nat)) (p : FilePath') (c : List Nat) :
    List (FilePath' × List Nat) :=
  match files with
  | [] => [(p, c)]
  | (q, d) :: rest => if q = p then (p, c) :: rest else (q, d) :: setFile rest p c

/-- `ioutil.WriteFile` with `O_CREATE|O_WRONLY|O_TRUNC`: truncating write,
failing when the target is a directory or its parent does not exist. -/
def ioutilWriteFile (fs : FS) (p : FilePath') (content : List Nat) : Res GitErr FS :=
  if isDir fs p then .err .errIsDir
  else if isDir fs p.dropLast then .ok { fs with files := setFile fs.files p content }
  else .err .errNotExist

def getFile (fs : FS) (p : FilePath') : Option (List Nat) :=
  lookupA fs.files p

/-- `Repository` (git.go lines 20-24); the `conf` field is unused. -/
structure Repository where
  workdir : FilePath'
  gitdir : FilePath'
deriving DecidableEq, Repr

/-- `OpenRepository` (git.go lines 93-109). -/
def OpenRepository (fs : FS) (dir : FilePath') : Res GitErr Repository :=
  if isDir fs dir then .ok ⟨dir, dir ++ [gitC]⟩ else .err .notGitDir

/-- `Repository.DirPath` (git.go lines 113-128). -/
def DirPath (fs : FS) (r : Repository) (mkdir : Bool) (chunks : List Comp) :
    Res GitErr (FilePath' × FS) :=
  let full := r.gitdir ++ chunks
  if isDir fs full then .ok (full, fs)
  else if !mkdir then .err .errNotExist
  else
    match osMkdirAll fs full with
    | .ok fs' => .ok (full, fs')
    | .err e => .err e

/-- `Repository.WriteFile` (git.go lines 130-142).  Note the source's
`pathChunks[:len(pathChunks)-2]` slice (dropping the last two components)
when more than one chunk is given; the claims only exercise single-chunk
calls, which skip that branch. -/
def RepoWriteFile (fs : FS) (r : Repository) (mkdir : Bool) (content : List Nat)
    (chunks : List Comp) : Res GitErr FS :=
  let step : Res GitErr FS :=
    if chunks.length > 1 then
      match DirPath fs r mkdir (chunks.take (chunks.length - 2)) with
      | .ok (_, fs') => .ok fs'
      | .err e => .err e
    else .ok fs
  match step with
  | .err e => .err e
  | .ok fs1 => ioutilWriteFile fs1 (r.gitdir ++ chunks) content

/-- `CreateRepository` (git.go lines 26-69).  The first switch checks
`errors.Is(err, os.ErrExist)` on the result of `os.MkdirAll`; the model's
`osMkdirAll` (like Go's) never produces that error for an existing
directory, so the `alreadyExists` branch is unreachable in that case. -/
def CreateRepository (fs : FS) (dir : FilePath') : Res GitErr (Repository × FS) :=
  match osMkdirAll fs (dir ++ [gitC]) with
  | .err e => if e = .errExist then .err .alreadyExists else .err e
  | .ok fs0 =>
    match OpenRepository fs0 dir with
    | .err e => .err e
    | .ok repo =>
      let step1 : Res GitErr FS :=
        if isDir fs0 repo.workdir then .ok fs0 else osMkdirAll fs0 repo.workdir
      match step1 with
      | .err e => .err e
      | .ok fs1 =>
        match DirPath fs1 repo true [branchesC] with
        | .err e => .err e
        | .ok (_, fs2) =>
          match DirPath fs2 repo true [objectsC] with
          | .err e => .err e
          | .ok (_, fs3) =>
            match DirPath fs3 repo true [refsC, tagsC] with
            | .err e => .err e
            | .ok (_, fs4) =>
              match DirPath fs4 repo true [refsC, headsC] with
              | .err e => .err e
              | .ok (_, fs5) =>
                match RepoWriteFile fs5 repo true defaultDescriptionB [descriptionC] with
                | .err e => .err e
                | .ok fs6 =>
                  match RepoWriteFile fs6 repo true defaultHEADB [headC] with
                  | .err e => .err e
                  | .ok fs7 =>
                    match RepoWriteFile fs7 repo true defaultConfigB [configC] with
                    | .err e => .err e
                    | .ok fs8 => .ok (repo, fs8)

/-- The Go string rendering of an absolute path: `"/"` for the root,
otherwise `/`-separated components.  Used to model the `repo == "."`
comparison in `FindRepository`. -/
def joinPathBytes : FilePath' → List Nat
  | [] => []
  | [c] => c
  | c :: rest => c ++ 47 :: joinPathBytes rest

def goPathBytes (p : FilePath') : List Nat := 47 :: joinPathBytes p

/-- Loop of `FindRepository` (git.go lines 77-91) over an already-absolute
path: look for `.git`, compare the path string against `"."`, else step to
`filepath.Dir` (drop the last component; the root's parent is the root).
`none` means the fuel ran out with the loop still running. -/
def findRepositoryAux (fs : FS) : Nat → FilePath' → Option (Res GitErr Repository)
  | 0, _ => none
  | fuel + 1, repo =>
    if isDir fs (repo ++ [gitC]) then some (OpenRepository fs repo)
    else if goPathBytes repo = [46] then some (.err .errNotExist)
    else findRepositoryAux fs fuel repo.dropLast

/-! ### Ref resolution (git.go lines 235-247) -/

/-- `strings.HasPrefix(ref, "ref:")` at the byte level. -/
def startsWithRefColon : List Nat → Bool
  | 114 :: 101 :: 102 :: 58 :: _ => true
  | _ => false

/-- Loop of `Repository.ResolveRef` over a map from file name bytes to file
content bytes (`ioutil.ReadFile`).  `ref[5:]` is `List.drop 5` (a ref
shorter than 5 bytes with the `"ref:"` marker would panic in Go on the
slice; no claim exercises that corner).  `none` is fuel exhaustion. -/
def resolveRefAux (rfs : List (List Nat × List Nat)) : Nat → List Nat →
    Option (Res GitErr (List Nat))
  | 0, _ => none
  | fuel + 1, ref =>
    if startsWithRefColon ref then
      match lookupA rfs (ref.drop 5) with
      | none => some (.err .notFound)
      | some raw => resolveRefAux rfs fuel raw
    else
      match hexDecode ref with
      | none => some (.err .invalidHex)
      | some bytes => some (.ok bytes)

/-- A chain of ref-file indirections in `rfs` from a ref string to a final
direct ref string (one without the `"ref:"` marker). -/
inductive RefChain (rfs : List (List Nat × List Nat)) : List Nat → List Nat → Prop
  | direct (h : List Nat) : startsWithRefColon h = false → RefChain rfs h h
  | step (name target h : List Nat) :
      lookupA rfs name = some target →
      RefChain rfs target h →
      RefChain rfs ([114, 101, 102, 58, 32] ++ name) h

/-! ### Tree checkout (cmd.go lines 200-222) -/

/-- Outcome of `treeCheckout`: success, a returned error, a propagated
panic, or fuel exhaustion of the model. -/
inductive ChkOut where
  | okC
  | errC (e : GitErr)
  | panickedC (msg : String)
  | fuelC
deriving DecidableEq, Repr

/-- `treeCheckout` (cmd.go lines 200-222): for each leaf read the object;
a `Tree` creates the destination directory and recurses — the source
discards the recursive call's error result (cmd.go line 212) — a `Blob` is
written to the destination file, and any other kind is an error.  The
filesystem is threaded; the fuel bounds the recursion depth and leaf count
together. -/
def treeCheckoutAux (store : Store) : Nat → List TreeLeaf → FilePath' → FS → FS × ChkOut
  | 0, _, _, fs => (fs, .fuelC)
  | _ + 1, [], _, fs => (fs, .okC)
  | fuel + 1, leaf :: rest, dirP, fs =>
    match ReadObject store leaf.sha with
    | .err e => (fs, .errC e)
    | .panicked m => (fs, .panickedC m)
    | .ok obj =>
      let dest := dirP ++ [leaf.path]
      match obj with
      | .tree ls =>
        match osMkdirAll fs dest with
        | .err e => (fs, .errC e)
        | .ok fs1 =>
          let sub := treeCheckoutAux store fuel ls dest fs1
          treeCheckoutAux store fuel rest dirP sub.1
      | .blob data =>
        match ioutilWriteFile fs dest data with
        | .err e => (fs, .errC e)
        | .ok fs1 => treeCheckoutAux store fuel rest dirP fs1
      | .commit _ => (fs, .errC .unexpectedKind)

end GoGit

namespace GoGit

/-! ### Helper lemmas about the parsing primitives -/

theorem lookupA_cons_self {α β : Type} [DecidableEq α] (k : α) (v : β) (s : List (α × β)) :
    lookupA ((k, v) :: s) k = some v := by
  simp [lookupA]

theorem readStringUntil_append (b : Nat) (tok rest : List Nat) (hb : b ∉ tok) :
    readStringUntil b (tok ++ b :: rest) = some (tok, rest) := by
  induction tok with
  | nil => simp [readStringUntil]
  | cons c t ih =>
    have hcb : c ≠ b := fun h => hb (h ▸ List.mem_cons_self c t)
    have ih' := ih (fun h => hb (List.mem_cons_of_mem _ h))
    simp [readStringUntil, hcb, ih']

theorem readStringUntil_eq_none (b : Nat) (l : List Nat) (hb : b ∉ l) :
    readStringUntil b l = none := by
  induction l with
  | nil => rfl
  | cons c t ih =>
    have hcb : c ≠ b := fun h => hb (h ▸ List.mem_cons_self c t)
    have ih' := ih (fun h => hb (List.mem_cons_of_mem _ h))
    simp [readStringUntil, hcb, ih']

theorem natDecAux_digits (fuel : Nat) : ∀ n c, c ∈ natDecAux fuel n → 48 ≤ c ∧ c ≤ 57 := by
  induction fuel with
  | zero => intro n c hc; simp [natDecAux] at hc
  | succ f ih =>
    intro n c hc
    by_cases h : n < 10
    · simp [natDecAux, h] at hc
      omega
    · simp [natDecAux, h] at hc
      rcases hc with hc | hc
      · exact ih _ c hc
      · have : n % 10 < 10 := Nat.mod_lt _ (by omega)
        omega

theorem natDec_no_space (n : Nat) : (32 : Nat) ∉ natDec n := by
  intro h
  have := natDecAux_digits (n + 1) n 32 h
  omega

theorem natDec_no_nul (n : Nat) : (0 : Nat) ∉ natDec n := by
  intro h
  have := natDecAux_digits (n + 1) n 0 h
  omega

theorem natDecAux_ne_nil (f n : Nat) : natDecAux (f + 1) n ≠ [] := by
  by_cases h : n < 10 <;> simp [natDecAux, h]

theorem natDec_ne_nil (n : Nat) : natDec n ≠ [] := natDecAux_ne_nil n n

theorem parseDigitsAux_natDecAux (fuel : Nat) :
    ∀ n acc rest, n < fuel →
      parseDigitsAux acc (natDecAux fuel n ++ rest) =
        parseDigitsAux (acc * 10 ^ (natDecAux fuel n).length + n) rest := by
  induction fuel with
  | zero => intro n acc rest h; omega
  | succ f ih =>
    intro n acc rest h
    by_cases hn : n < 10
    · have hdig : 48 ≤ 48 + n ∧ 48 + n ≤ 57 := by omega
      simp [natDecAux, hn, parseDigitsAux, hdig]
    · have hdiv : n / 10 < f := by
        have h1 : n / 10 < n := Nat.div_lt_self (by omega) (by omega)
        omega
      have hmod : n % 10 < 10 := Nat.mod_lt _ (by omega)
      have hdig : 48 ≤ 48 + n % 10 ∧ 48 + n % 10 ≤ 57 := by omega
      have hstep := ih (n / 10) acc ((48 + n % 10) :: rest) hdiv
      simp only [natDecAux, if_neg hn, List.append_assoc, List.cons_append, List.nil_append,
        List.length_append, List.length_cons, List.length_nil]
      rw [hstep]
      simp only [parseDigitsAux, if_pos hdig]
      have hsub : 48 + n % 10 - 48 = n % 10 := by omega
      rw [hsub, pow_succ, ← Nat.mul_assoc]
      have key : (acc * 10 ^ (natDecAux f (n / 10)).length + n / 10) * 10 + n % 10 =
          acc * 10 ^ (natDecAux f (n / 10)).length * 10 + n := by omega
      rw [key]

theorem parseDigits_natDec (n : Nat) : parseDigits (natDec n) = some n := by
  have h := parseDigitsAux_natDecAux (n + 1) n 0 [] (by omega)
  rw [List.append_nil] at h
  simp [parseDigits, natDec, natDecAux_ne_nil] at h ⊢
  rw [h]
  simp [parseDigitsAux]

theorem atoiZ_natDec (n : Nat) : atoiZ (natDec n) = some (n : Int) := by
  rcases hc : natDec n with _ | ⟨c, rest⟩
  · exact absurd hc (natDec_ne_nil n)
  · have hdig : 48 ≤ c ∧ c ≤ 57 := by
      apply natDecAux_digits (n + 1) n
      rw [show natDecAux (n + 1) n = natDec n from rfl, hc]
      exact List.mem_cons_self c rest
    have h43 : c ≠ 43 := by omega
    have h45 : c ≠ 45 := by omega
    have := parseDigits_natDec n
    rw [hc] at this
    simp [atoiZ, h43, h45, this]

theorem intToUInt32_coe (n : Nat) : intToUInt32 (n : Int) = n % 2 ^ 32 := by
  unfold intToUInt32
  omega

end GoGit

namespace GoGit

/-- Reading back an object just written stores and re-parses the frame:
for any kind without a space byte whose hash is 20 bytes long, the result
is the dispatch of the constructor registry on the kind. -/
theorem ReadObject_WriteObject_eq (H : List Nat → List Nat) (store : Store) (kind p : List Nat)
    (h32 : (32 : Nat) ∉ kind) (h20 : (H (frameBytes kind p)).length = 20) :
    ReadObject (WriteObject H store kind p).2 (WriteObject H store kind p).1 =
      (match objCtor kind with
       | none => ROut.err .unknownKind
       | some .commitC => ROut.ok (.commit (commitObjectDeserialize p))
       | some .blobC => ROut.ok (.blob p)
       | some .treeC =>
         match treeObjectDeserialize p with
         | .ok t => ROut.ok (.tree t)
         | .err e => ROut.err (.deserialize e)
       | some .tagC => ROut.panicked "todo: tag") := by
  show ReadObject ((H (frameBytes kind p), frameBytes kind p) :: store) (H (frameBytes kind p)) = _
  unfold ReadObject
  rw [if_neg (by simp [h20])]
  rw [lookupA_cons_self]
  show (match readStringUntil 32 (kind ++ 32 :: (natDec p.length ++ 0 :: p)) with
       | none => ROut.err .readKind
       | some (kindTok, rest) =>
         match objCtor kindTok with
         | none => ROut.err .unknownKind
         | some ctor =>
           match readStringUntil 0 rest with
           | none => ROut.err .readSize
           | some (ssize, content) =>
             match atoiZ ssize with
             | none => ROut.err .invalidSize
             | some size =>
               if size ≠ (content.length : Int) then ROut.err .lengthMismatch
               else
                 match ctor with
                 | .commitC => ROut.ok (.commit (commitObjectDeserialize content))
                 | .blobC => ROut.ok (.blob content)
                 | .treeC =>
                   match treeObjectDeserialize content with
                   | .ok t => ROut.ok (.tree t)
                   | .err e => ROut.err (.deserialize e)
                 | .tagC => ROut.panicked "todo: tag") = _
  simp only [readStringUntil_append 32 kind _ h32]
  cases hctor : objCtor kind with
  | none => rfl
  | some ctor =>
    simp only [readStringUntil_append 0 (natDec p.length) p (natDec_no_nul _)]
    simp only [atoiZ_natDec]
    rw [if_neg (by simp)]
    cases ctor <;> rfl

end GoGit

namespace GoGit

theorem objCtor_blob : objCtor blobK = some .blobC := by decide

theorem objCtor_tag : objCtor tagK = some .tagC := by decide

/-- A stand-in hash used by the concrete witnesses (the theorems hold for
every hash function of 20-byte output, `sha1.Sum` included). -/
def constHash : List Nat → List Nat := fun _ => List.replicate 20 0

/-- C1: for every byte sequence `p`, writing `p` as a `"blob"` object and
reading the returned identifier back yields a Blob object whose data is
exactly `p` (for any hash with 20-byte output, as `sha1.Sum` has). -/
theorem ReadObject_WriteObject_blob_roundtrip (H : List Nat → List Nat) (store : Store)
    (p : List Nat) (h20 : (H (frameBytes blobK p)).length = 20) :
    ReadObject (WriteObject H store blobK p).2 (WriteObject H store blobK p).1 =
      .ok (.blob p) := by
  have h := ReadObject_WriteObject_eq H store blobK p (by decide) h20
  rw [objCtor_blob] at h
  exact h

/-- Witness for C1 at `p = "hi"` with a concrete 20-byte-output hash. -/
theorem ReadObject_WriteObject_blob_roundtrip_witness :
    (constHash (frameBytes blobK [104, 105])).length = 20 ∧
    ReadObject (WriteObject constHash [] blobK [104, 105]).2
        (WriteObject constHash [] blobK [104, 105]).1 = .ok (.blob [104, 105]) :=
  ⟨by decide, ReadObject_WriteObject_blob_roundtrip constHash [] [104, 105] (by decide)⟩

/-- C2: the identifier returned by `WriteObject` does not depend on the
store state (two calls with identical kind and payload agree), it is the
hash of the frame `kind ++ " " ++ decimal length ++ NUL ++ payload`, and
that frame is never the payload alone. -/
theorem WriteObject_deterministic_hash_of_frame (H : List Nat → List Nat)
    (kind p : List Nat) (s1 s2 : Store) :
    (WriteObject H s1 kind p).1 = (WriteObject H s2 kind p).1 ∧
    (WriteObject H s1 kind p).1 = H (frameBytes kind p) ∧
    frameBytes kind p = kind ++ 32 :: (natDec p.length ++ 0 :: p) ∧
    frameBytes kind p ≠ p := by
  refine ⟨rfl, rfl, rfl, ?_⟩
  intro hEq
  have hlen := congrArg List.length hEq
  simp [frameBytes] at hlen
  omega

/-- C10: reading back a stored object written under the `"tag"` kind
reaches the registered `"tag"` constructor, which panics: `ReadObject`
does not return an error value for it. -/
theorem ReadObject_tag_panics (H : List Nat → List Nat) (store : Store) (p : List Nat)
    (h20 : (H (frameBytes tagK p)).length = 20) :
    ReadObject (WriteObject H store tagK p).2 (WriteObject H store tagK p).1 =
      .panicked "todo: tag" := by
  have h := ReadObject_WriteObject_eq H store tagK p (by decide) h20
  rw [objCtor_tag] at h
  exact h

/-- Witness for C10 at a concrete payload and hash. -/
theorem ReadObject_tag_panics_witness :
    (constHash (frameBytes tagK [1, 2])).length = 20 ∧
    ReadObject (WriteObject constHash [] tagK [1, 2]).2
        (WriteObject constHash [] tagK [1, 2]).1 = .panicked "todo: tag" :=
  ⟨by decide, ReadObject_tag_panics constHash [] [1, 2] (by decide)⟩

end GoGit

namespace GoGit

/-- Well-formedness of a tree value as built by the source: 20-byte
identifiers, no NUL byte inside a name, and a mode that fits `uint32`. -/
def WfLeaf (l : TreeLeaf) : Prop :=
  l.sha.length = 20 ∧ (0 : Nat) ∉ l.path ∧ l.mode < 2 ^ 32

instance (l : TreeLeaf) : Decidable (WfLeaf l) := by
  unfold WfLeaf
  infer_instance

theorem drop_after_token (input tok : List Nat) (b r : Nat) (X : List Nat)
    (hdrop : input.drop r = tok ++ b :: X) :
    input.drop (r + tok.length + 1) = X := by
  have h1 : (input.drop r).drop (tok.length + 1) = X := by
    rw [hdrop]
    have h2 : tok ++ b :: X = (tok ++ [b]) ++ X := by simp
    have h3 : tok.length + 1 = (tok ++ [b]).length := by simp
    rw [h2, h3, List.drop_left]
  rw [List.drop_drop] at h1
  have h4 : r + tok.length + 1 = r + (tok.length + 1) := by omega
  rw [h4]
  exact h1

/-- A `ReadString` that finds its delimiter returns the token before it
and advances past it; the resulting window end stays within the input. -/
theorem bufReadString_found (b : Nat) (input : List Nat) (r w : Nat) (tok rest : List Nat)
    (hb : b ∉ tok) (hdrop : input.drop r = tok ++ b :: rest) (hw : w ≤ input.length) :
    ∃ w2, bufReadString b input r w = some (tok, r + tok.length + 1, w2) ∧
      w2 ≤ input.length := by
  unfold bufReadString
  simp only [hdrop, readStringUntil_append b tok rest hb]
  by_cases h : r + tok.length < w
  · rw [if_pos h]
    exact ⟨w, rfl, hw⟩
  · rw [if_neg h]
    exact ⟨_, rfl, Nat.min_le_right _ _⟩

/-- `ReadString` in the fully-buffered regime (`w = input.length`): the
window end is preserved. -/
theorem bufReadString_full (b : Nat) (input : List Nat) (r : Nat) (tok rest : List Nat)
    (hb : b ∉ tok) (hdrop : input.drop r = tok ++ b :: rest) :
    bufReadString b input r input.length = some (tok, r + tok.length + 1, input.length) := by
  have hlen : (input.drop r).length = tok.length + (rest.length + 1) := by
    rw [hdrop]
    simp
  rw [List.length_drop] at hlen
  have hr : r < input.length := by
    by_cases h : r < input.length
    · exact h
    · rw [List.drop_eq_nil_of_le (by omega)] at hdrop
      exact absurd hdrop.symm (by simp)
  unfold bufReadString
  simp only [hdrop, readStringUntil_append b tok rest hb]
  rw [if_pos (by omega)]

/-- The first `ReadString` of a fresh reader over an input that fits the
buffer: one fill extends the window to the whole input. -/
theorem bufReadString_start (b : Nat) (input : List Nat) (tok rest : List Nat)
    (hb : b ∉ tok) (hinput : input = tok ++ b :: rest) (hsize : input.length ≤ bufSize) :
    bufReadString b input 0 0 = some (tok, tok.length + 1, input.length) := by
  have htok : tok.length < bufSize := by
    have h := congrArg List.length hinput
    simp at h
    omega
  have hfind : readStringUntil b input = some (tok, rest) := by
    rw [hinput]
    exact readStringUntil_append b tok rest hb
  unfold bufReadString
  simp only [List.drop_zero, hfind]
  rw [if_neg (by omega)]
  have hmin : min (0 + (tok.length / bufSize + 1) * bufSize) input.length = input.length := by
    rw [Nat.div_eq_of_lt htok]
    simpa using min_eq_right hsize
  rw [hmin]
  simp

/-- A 20-byte `Read` in the fully-buffered regime with at least 20 bytes
ahead: the full identifier is copied. -/
theorem bufRead_full (input : List Nat) (r : Nat) (sha rest : List Nat)
    (hsha : sha.length = 20) (hdrop : input.drop r = sha ++ rest) :
    bufRead 20 input r input.length = some (sha, r + 20, input.length) := by
  have hlen : (input.drop r).length = 20 + rest.length := by
    rw [hdrop]
    simp [hsha]
  rw [List.length_drop] at hlen
  have hr : r < input.length := by
    by_cases h : r < input.length
    · exact h
    · rw [List.drop_eq_nil_of_le (by omega)] at hdrop
      have := congrArg List.length hdrop
      simp [hsha] at this
      omega
  unfold bufRead
  rw [if_pos (by omega)]
  have hmin : min 20 (input.length - r) = 20 := by omega
  have htake : (input.drop r).take 20 = sha := by
    rw [hdrop, ← hsha]
    exact List.take_left sha rest
  rw [hmin, htake]

theorem treeObjectDeserializeAux_serialize (t : List TreeLeaf) :
    ∀ (fuel r w : Nat) (input : List Nat) (acc : List TreeLeaf), (∀ l ∈ t, WfLeaf l) →
      input.drop r = treeObjectSerialize t →
      (treeObjectSerialize t).length < fuel →
      (w = input.length ∨ (r = 0 ∧ w = 0 ∧ input.length ≤ bufSize)) →
      treeObjectDeserializeAux input fuel r w acc = .ok (acc ++ t) := by
  induction t with
  | nil =>
    intro fuel r w input acc _ hdrop hfuel _
    obtain ⟨f, rfl⟩ : ∃ f, fuel = f + 1 := ⟨fuel - 1, by omega⟩
    simp only [treeObjectSerialize] at hdrop
    simp [treeObjectDeserializeAux, bufReadString, hdrop, readStringUntil]
  | cons l t ih =>
    intro fuel r w input acc hwf hdrop hfuel hst
    obtain ⟨hsha, hnul, hmode⟩ := hwf l (List.mem_cons_self l t)
    obtain ⟨f, rfl⟩ : ∃ f, fuel = f + 1 := ⟨fuel - 1, by omega⟩
    have hshape : treeObjectSerialize (l :: t) =
        natDec l.mode ++ 32 :: (l.path ++ 0 :: (l.sha ++ treeObjectSerialize t)) := by
      simp [treeObjectSerialize, treeSerializeLeaf, List.append_assoc]
    rw [hshape] at hdrop hfuel
    have hread1 : bufReadString 32 input r w =
        some (natDec l.mode, r + (natDec l.mode).length + 1, input.length) := by
      rcases hst with hw | ⟨hr0, hw0, hsize⟩
      · subst hw
        exact bufReadString_full 32 input r (natDec l.mode) _ (natDec_no_space _) hdrop
      · subst hr0
        subst hw0
        rw [List.drop_zero] at hdrop
        simpa using bufReadString_start 32 input (natDec l.mode) _ (natDec_no_space _)
          hdrop hsize
    have hdrop1 : input.drop (r + (natDec l.mode).length + 1) =
        l.path ++ 0 :: (l.sha ++ treeObjectSerialize t) :=
      drop_after_token input (natDec l.mode) 32 r _ hdrop
    have hread2 : bufReadString 0 input (r + (natDec l.mode).length + 1) input.length =
        some (l.path, r + (natDec l.mode).length + 1 + l.path.length + 1, input.length) :=
      bufReadString_full 0 input _ l.path _ hnul hdrop1
    have hdrop2 : input.drop (r + (natDec l.mode).length + 1 + l.path.length + 1) =
        l.sha ++ treeObjectSerialize t :=
      drop_after_token input l.path 0 _ _ hdrop1
    have hread3 : bufRead 20 input (r + (natDec l.mode).length + 1 + l.path.length + 1)
        input.length =
        some (l.sha, r + (natDec l.mode).length + 1 + l.path.length + 1 + 20, input.length) :=
      bufRead_full input _ l.sha _ hsha hdrop2
    have hdrop3 : input.drop (r + (natDec l.mode).length + 1 + l.path.length + 1 + 20) =
        treeObjectSerialize t := by
      have h1 : input.drop (r + (natDec l.mode).length + 1 + l.path.length + 1 + 20) =
          (input.drop (r + (natDec l.mode).length + 1 + l.path.length + 1)).drop 20 := by
        rw [List.drop_drop]
      rw [h1, hdrop2, ← hsha, List.drop_left]
    simp only [treeObjectDeserializeAux, hread1, atoiZ_natDec, hread2, hread3]
    have hleaf : (⟨intToUInt32 (l.mode : Int), l.path,
        l.sha ++ List.replicate (20 - l.sha.length) 0⟩ : TreeLeaf) = l := by
      obtain ⟨m, pa, sh⟩ := l
      simp only at hmode hsha
      simp [intToUInt32_coe, hsha]
      omega
    rw [hleaf]
    have hlen : (treeObjectSerialize t).length < f := by
      have hd1 : 1 ≤ (natDec l.mode).length := by
        cases hc : natDec l.mode with
        | nil => exact absurd hc (natDec_ne_nil _)
        | cons a b => simp
      simp only [List.length_append, List.length_cons, hsha] at hfuel
      omega
    rw [ih f _ input.length input (acc ++ [l])
      (fun x hx => hwf x (List.mem_cons_of_mem _ hx)) hdrop3 hlen (Or.inl rfl)]
    simp

/-- The 4085-byte NUL-free name of the window counterexample. -/
def cexName : List Nat := List.replicate 4085 97

/-- The 20-byte identifier of the window counterexample. -/
def cexSha : List Nat := List.replicate 20 7

/-- A well-formed leaf whose serialization straddles bufio's window. -/
def cexLeaf : TreeLeaf := ⟨1, cexName, cexSha⟩

/-- The 4108-byte serialization of `[cexLeaf]`:
`"1 " ++ name ++ NUL ++ sha`. -/
def cexInput : List Nat := [49] ++ 32 :: (cexName ++ 0 :: cexSha)

theorem cexName_length : cexName.length = 4085 := by
  rw [cexName, List.length_replicate]

theorem cexSha_length : cexSha.length = 20 := by
  rw [cexSha, List.length_replicate]

theorem cexName_no_nul : (0 : Nat) ∉ cexName := by
  rw [cexName, List.mem_replicate]
  omega

theorem cexInput_serialize : treeObjectSerialize [cexLeaf] = cexInput := by
  have h1 : natDec 1 = [49] := by decide
  simp [treeObjectSerialize, treeSerializeLeaf, cexLeaf, cexInput, h1]

theorem cexInput_length : cexInput.length = 4108 := by
  rw [show cexInput = 49 :: 32 :: (cexName ++ 0 :: cexSha) from rfl]
  rw [List.length_cons, List.length_cons, List.length_append, List.length_cons,
    cexName_length, cexSha_length]

theorem cexInput_drop_two : cexInput.drop 2 = cexName ++ 0 :: cexSha := rfl

theorem cexInput_drop_sha : cexInput.drop 4088 = cexSha := by
  have h := drop_after_token cexInput cexName 0 2 cexSha cexInput_drop_two
  rw [cexName_length] at h
  norm_num at h
  exact h

theorem cexInput_drop_tail : cexInput.drop 4096 = List.replicate 12 7 := by
  have h : cexInput.drop 4096 = (cexInput.drop 4088).drop 8 := by
    rw [List.drop_drop]
  rw [h, cexInput_drop_sha, cexSha, List.drop_replicate]

theorem cex_read_mode : bufReadString 32 cexInput 0 0 = some ([49], 2, 4096) := by
  unfold bufReadString
  have hf : readStringUntil 32 (cexInput.drop 0) =
      some ([49], cexName ++ 0 :: cexSha) := by
    rw [List.drop_zero]
    exact readStringUntil_append 32 [49] _ (by decide)
  simp only [hf]
  rw [if_neg (by omega), cexInput_length]
  norm_num [bufSize]

theorem cex_read_name : bufReadString 0 cexInput 2 4096 = some (cexName, 4088, 4096) := by
  unfold bufReadString
  have hf : readStringUntil 0 (cexInput.drop 2) = some (cexName, cexSha) := by
    rw [cexInput_drop_two]
    exact readStringUntil_append 0 cexName cexSha cexName_no_nul
  simp only [hf]
  rw [if_pos (by rw [cexName_length]; omega)]
  rw [cexName_length]

theorem cex_read_sha : bufRead 20 cexInput 4088 4096 =
    some (List.replicate 8 7, 4096, 4096) := by
  unfold bufRead
  rw [if_pos (by omega)]
  norm_num
  rw [cexInput_drop_sha, cexSha, List.take_replicate]
  rw [show (8 ⊓ 20 : Nat) = 8 from by omega]

theorem cex_read_end : bufReadString 32 cexInput 4096 4096 = none := by
  unfold bufReadString
  rw [cexInput_drop_tail, readStringUntil_eq_none 32 _ (by decide)]

/-- Counterexample for C3 as stated: the well-formed single-leaf tree
`[cexLeaf]` (mode 1, a 4085-byte name, a 20-byte identifier), whose
serialization is 4108 bytes, does not round-trip.  After `ReadString`
consumes the name, only 8 of the 20 identifier bytes are still inside
bufio's first 4096-byte window; `rd.Read` returns those 8 bytes without
error (the source ignores the count), so the decoded identifier is the
8-byte prefix zero-padded to 20, not the stored identifier. -/
theorem tree_roundtrip_window_counterexample :
    WfLeaf cexLeaf ∧
    treeObjectDeserialize (treeObjectSerialize [cexLeaf]) =
      .ok [⟨1, cexName, List.replicate 8 7 ++ List.replicate 12 0⟩] ∧
    (List.replicate 8 7 ++ List.replicate 12 0 : List Nat) ≠ cexSha := by
  refine ⟨⟨cexSha_length, cexName_no_nul, by decide⟩, ?_, by decide⟩
  rw [cexInput_serialize]
  unfold treeObjectDeserialize
  rw [cexInput_length]
  have hat : atoiZ [49] = some 1 := by decide
  have hI : intToUInt32 (1 : Int) = 1 := by decide
  rw [show (4108 : Nat) + 1 = 4107 + 1 + 1 from rfl]
  rw [treeObjectDeserializeAux]
  simp only [cex_read_mode, hat, cex_read_name, cex_read_sha, hI]
  rw [treeObjectDeserializeAux]
  simp only [cex_read_end]
  rw [List.nil_append, List.length_replicate]

/-- C3 (amended): for every well-formed tree (20-byte identifiers, NUL-free
names, `uint32` modes) whose serialization fits bufio's 4096-byte buffer,
deserializing its serialization reproduces the leaf sequence exactly:
mode, name and identifier bytes, in order. -/
theorem TreeObject_serialize_deserialize_roundtrip (t : List TreeLeaf)
    (hwf : ∀ l ∈ t, WfLeaf l) (hsize : (treeObjectSerialize t).length ≤ bufSize) :
    treeObjectDeserialize (treeObjectSerialize t) = .ok t := by
  unfold treeObjectDeserialize
  have h := treeObjectDeserializeAux_serialize t ((treeObjectSerialize t).length + 1) 0 0
    (treeObjectSerialize t) [] hwf (by rw [List.drop_zero]) (by omega)
    (Or.inr ⟨rfl, rfl, hsize⟩)
  simpa using h

/-- Witness for the amended C3 at a concrete two-leaf tree. -/
theorem TreeObject_serialize_deserialize_roundtrip_witness :
    treeObjectDeserialize (treeObjectSerialize
        [⟨420, [97], List.replicate 20 7⟩, ⟨16384, [100, 105, 114], List.replicate 20 9⟩]) =
      .ok [⟨420, [97], List.replicate 20 7⟩, ⟨16384, [100, 105, 114], List.replicate 20 9⟩] :=
  TreeObject_serialize_deserialize_roundtrip
    [⟨420, [97], List.replicate 20 7⟩, ⟨16384, [100, 105, 114], List.replicate 20 9⟩]
    (by decide) (by decide)

end GoGit

namespace GoGit

/-- Counterexample for C6 as stated: the payload `"1 a\x00"` followed by
only five identifier bytes is accepted, producing a leaf whose identifier
is the five bytes zero-padded to 20 — deserialization does not fail when
fewer than 20 bytes remain (the single `bufio.Reader.Read` call returns
the short count without an error). -/
theorem treeDeserialize_short_sha_accepted :
    treeObjectDeserialize [49, 32, 97, 0, 5, 5, 5, 5, 5] =
      .ok [⟨1, [97], [5, 5, 5, 5, 5] ++ List.replicate 15 0⟩] := by decide

/-- C6 (amended): deserialization fails on a non-numeric mode token, on a
name with no terminating NUL, and when exactly zero bytes remain for the
identifier after the name's NUL; but when the payload fits bufio's
4096-byte buffer and between 1 and 19 bytes follow the NUL, it silently
accepts a leaf whose identifier is those bytes zero-padded to 20.  Mode
values are bounded by `2 ^ 63`, the range where `strconv.Atoi` succeeds
(beyond it the program fails on the mode token with `ErrRange` instead). -/
theorem treeDeserialize_error_cases :
    (∀ m rest, (32 : Nat) ∉ m → atoiZ m = none →
      treeObjectDeserialize (m ++ 32 :: rest) = .err .invalidMode) ∧
    (∀ n name, (0 : Nat) ∉ name → n < 2 ^ 63 →
      treeObjectDeserialize (natDec n ++ 32 :: name) = .err .readPath) ∧
    (∀ n name, (0 : Nat) ∉ name → n < 2 ^ 63 →
      treeObjectDeserialize (natDec n ++ 32 :: (name ++ [0])) = .err .readSha) ∧
    (∀ n name shaB, (0 : Nat) ∉ name → 1 ≤ shaB.length → shaB.length ≤ 19 → n < 2 ^ 63 →
      (natDec n ++ 32 :: (name ++ 0 :: shaB)).length ≤ bufSize →
      treeObjectDeserialize (natDec n ++ 32 :: (name ++ 0 :: shaB)) =
        .ok [⟨n % 2 ^ 32, name, shaB ++ List.replicate (20 - shaB.length) 0⟩]) := by
  refine ⟨?_, ?_, ?_, ?_⟩
  · intro m rest hm hatoi
    unfold treeObjectDeserialize
    obtain ⟨w1, hr1, -⟩ := bufReadString_found 32 (m ++ 32 :: rest) 0 0 m rest hm
      (by rw [List.drop_zero]) (Nat.zero_le _)
    simp only [treeObjectDeserializeAux, hr1, hatoi]
  · intro n name hnul hbound
    unfold treeObjectDeserialize
    obtain ⟨w1, hr1, -⟩ := bufReadString_found 32 (natDec n ++ 32 :: name) 0 0 (natDec n) name
      (natDec_no_space n) (by rw [List.drop_zero]) (Nat.zero_le _)
    have hdrop1 : (natDec n ++ 32 :: name).drop (0 + (natDec n).length + 1) = name :=
      drop_after_token _ (natDec n) 32 0 name (by rw [List.drop_zero])
    have hr2 : bufReadString 0 (natDec n ++ 32 :: name) (0 + (natDec n).length + 1) w1 =
        none := by
      unfold bufReadString
      rw [hdrop1, readStringUntil_eq_none 0 name hnul]
    simp only [treeObjectDeserializeAux, hr1, atoiZ_natDec, hr2]
  · intro n name hnul hbound
    unfold treeObjectDeserialize
    obtain ⟨w1, hr1, hw1⟩ := bufReadString_found 32 (natDec n ++ 32 :: (name ++ [0])) 0 0
      (natDec n) (name ++ [0]) (natDec_no_space n) (by rw [List.drop_zero]) (Nat.zero_le _)
    have hdrop1 : (natDec n ++ 32 :: (name ++ [0])).drop (0 + (natDec n).length + 1) =
        name ++ 0 :: [] :=
      drop_after_token _ (natDec n) 32 0 _ (by rw [List.drop_zero])
    obtain ⟨w2, hr2, hw2⟩ := bufReadString_found 0 (natDec n ++ 32 :: (name ++ [0]))
      (0 + (natDec n).length + 1) w1 name [] hnul hdrop1 hw1
    have hr2len : 0 + (natDec n).length + 1 + name.length + 1 =
        (natDec n ++ 32 :: (name ++ [0])).length := by
      simp
      omega
    have hread3 : bufRead 20 (natDec n ++ 32 :: (name ++ [0]))
        (0 + (natDec n).length + 1 + name.length + 1) w2 = none := by
      unfold bufRead
      rw [if_neg (by omega), if_neg (by omega)]
    simp only [treeObjectDeserializeAux, hr1, atoiZ_natDec, hr2, hread3]
  · intro n name shaB hnul h1 h19 hbound hsize
    unfold treeObjectDeserialize
    have hr1 : bufReadString 32 (natDec n ++ 32 :: (name ++ 0 :: shaB)) 0 0 =
        some (natDec n, (natDec n).length + 1,
          (natDec n ++ 32 :: (name ++ 0 :: shaB)).length) :=
      bufReadString_start 32 _ (natDec n) _ (natDec_no_space n) rfl hsize
    have hdrop1 : (natDec n ++ 32 :: (name ++ 0 :: shaB)).drop ((natDec n).length + 1) =
        name ++ 0 :: shaB := by
      have h := drop_after_token (natDec n ++ 32 :: (name ++ 0 :: shaB)) (natDec n) 32 0
        (name ++ 0 :: shaB) (by rw [List.drop_zero])
      rw [Nat.zero_add] at h
      exact h
    have hr2 : bufReadString 0 (natDec n ++ 32 :: (name ++ 0 :: shaB))
        ((natDec n).length + 1) (natDec n ++ 32 :: (name ++ 0 :: shaB)).length =
        some (name, (natDec n).length + 1 + name.length + 1,
          (natDec n ++ 32 :: (name ++ 0 :: shaB)).length) :=
      bufReadString_full 0 _ _ name _ hnul hdrop1
    have hdrop2 : (natDec n ++ 32 :: (name ++ 0 :: shaB)).drop
        ((natDec n).length + 1 + name.length + 1) = shaB :=
      drop_after_token _ name 0 ((natDec n).length + 1) shaB hdrop1
    have hlen2 : (natDec n ++ 32 :: (name ++ 0 :: shaB)).length =
        (natDec n).length + 1 + name.length + 1 + shaB.length := by
      simp
      omega
    have hread3 : bufRead 20 (natDec n ++ 32 :: (name ++ 0 :: shaB))
        ((natDec n).length + 1 + name.length + 1)
        (natDec n ++ 32 :: (name ++ 0 :: shaB)).length =
        some (shaB, (natDec n).length + 1 + name.length + 1 + shaB.length,
          (natDec n ++ 32 :: (name ++ 0 :: shaB)).length) := by
      unfold bufRead
      rw [if_pos (by omega)]
      have hmin : min 20 ((natDec n ++ 32 :: (name ++ 0 :: shaB)).length -
          ((natDec n).length + 1 + name.length + 1)) = shaB.length := by omega
      rw [hmin, hdrop2, List.take_length]
    simp only [treeObjectDeserializeAux, hr1, atoiZ_natDec, hr2, hread3, intToUInt32_coe]
    obtain ⟨k, hk⟩ : ∃ k, (natDec n ++ 32 :: (name ++ 0 :: shaB)).length = k + 1 :=
      ⟨(natDec n ++ 32 :: (name ++ 0 :: shaB)).length - 1, by simp; omega⟩
    rw [hk]
    have hfin : bufReadString 32 (natDec n ++ 32 :: (name ++ 0 :: shaB))
        ((natDec n).length + 1 + name.length + 1 + shaB.length) (k + 1) = none := by
      unfold bufReadString
      rw [List.drop_eq_nil_of_le (by omega)]
      rfl
    simp only [treeObjectDeserializeAux, hfin]
    simp

/-- Witness for the amended C6 at concrete inputs for all four cases. -/
theorem treeDeserialize_error_cases_witness :
    treeObjectDeserialize ([120] ++ 32 :: []) = .err .invalidMode ∧
    treeObjectDeserialize (natDec 7 ++ 32 :: [97]) = .err .readPath ∧
    treeObjectDeserialize (natDec 7 ++ 32 :: ([97] ++ [0])) = .err .readSha ∧
    treeObjectDeserialize (natDec 7 ++ 32 :: ([97] ++ 0 :: [9])) =
      .ok [⟨7 % 2 ^ 32, [97], [9] ++ List.replicate 19 0⟩] :=
  ⟨treeDeserialize_error_cases.1 [120] [] (by decide) (by decide),
   treeDeserialize_error_cases.2.1 7 [97] (by decide) (by decide),
   treeDeserialize_error_cases.2.2.1 7 [97] (by decide) (by decide),
   treeDeserialize_error_cases.2.2.2 7 [97] [9] (by decide) (by decide) (by decide)
     (by decide) (by decide)⟩

end GoGit

namespace GoGit

/-- C8: commit deserialization on the literal cases — the empty input
yields an empty header and empty comment; `"foo bar"` with no trailing
blank line yields the single header entry `foo -> ["bar"]` and an empty
comment; and in general end-of-input with a pending key and a non-empty
buffer flushes one final header value. -/
theorem CommitObject_deserialize_literal_cases :
    commitObjectDeserialize [] = ⟨[], []⟩ ∧
    commitObjectDeserialize [102, 111, 111, 32, 98, 97, 114] =
      ⟨[([102, 111, 111], [[98, 97, 114]])], []⟩ ∧
    (∀ key buf header, key ≠ [] → buf ≠ [] →
      commitDesAux [] key buf header = ⟨headerAppend header key buf, []⟩) := by
  refine ⟨by decide, by decide, ?_⟩
  intro key buf header hk hb
  simp [commitDesAux, hk, hb]

/-- Witness for C8's end-of-input flush rule at a concrete state. -/
theorem CommitObject_deserialize_literal_cases_witness :
    commitDesAux [] [107] [118] [] = ⟨headerAppend [] [107] [118], []⟩ :=
  CommitObject_deserialize_literal_cases.2.2 [107] [118] [] (by decide) (by decide)

/-- Counterexample for C7 as stated: with the spec's ref file format
(trailing newline included) resolution does not reach the identifier.  The
file `"A"` holds forty hex digits followed by a newline, yet resolving
`"ref: A"` fails with a hex decoding error, because the loop feeds the
file content — newline included — to `hex.DecodeString`. -/
theorem ResolveRef_newline_file_fails :
    resolveRefAux [([65], List.replicate 40 48 ++ [10])] 5 [114, 101, 102, 58, 32, 65] =
      some (.err .invalidHex) ∧
    hexDecode (List.replicate 40 48) = some (List.replicate 20 0) := by
  constructor
  · decide
  · decide

/-- C7 (amended): when the chained ref file contents carry no trailing
newline — each is either exactly `"ref: <path>"` or exactly the final
direct ref string — resolution follows the indirections to the final
string and returns its hex decoding; in particular a 40-hex-char string
resolves to its own 20-byte identifier. -/
theorem ResolveRef_chain_resolves (rfs : List (List Nat × List Nat)) (ref target bs : List Nat)
    (hchain : RefChain rfs ref target) (hdec : hexDecode target = some bs) :
    ∃ fuel, resolveRefAux rfs fuel ref = some (.ok bs) := by
  induction hchain with
  | direct h hns => exact ⟨1, by simp [resolveRefAux, hns, hdec]⟩
  | step name tgt h hlook hch ih =>
    obtain ⟨f, hf⟩ := ih hdec
    refine ⟨f + 1, ?_⟩
    have hsw : startsWithRefColon ([114, 101, 102, 58, 32] ++ name) = true := rfl
    have hdrop : ([114, 101, 102, 58, 32] ++ name).drop 5 = name := rfl
    simp only [resolveRefAux, hsw, if_pos, hdrop, hlook, hf]

/-- Witness for the amended C7: one indirection to a file of forty `'0'`
hex digits resolves to the twenty-byte zero identifier. -/
theorem ResolveRef_chain_resolves_witness :
    ∃ fuel, resolveRefAux [([65], List.replicate 40 48)] fuel
        ([114, 101, 102, 58, 32] ++ [65]) = some (.ok (List.replicate 20 0)) :=
  ResolveRef_chain_resolves [([65], List.replicate 40 48)] ([114, 101, 102, 58, 32] ++ [65])
    (List.replicate 40 48) (List.replicate 20 0)
    (RefChain.step [65] (List.replicate 40 48) (List.replicate 40 48) (by decide)
      (RefChain.direct (List.replicate 40 48) (by decide)))
    (by decide)

end GoGit

namespace GoGit

/-- The directory component `"r"` used by the C4 scenario. -/
def rComp : Comp := [114]

/-- Existing description file content `"old"` in the C4 scenario. -/
def oldDescB : List Nat := [111, 108, 100]

/-- A filesystem that already holds a repository at `/r`: the `.git`
directory exists and its `description` file has user content. -/
def fsExistingRepo : FS :=
  ⟨[[rComp], [rComp, gitC]], [([rComp, gitC, descriptionC], oldDescB)]⟩

/-- The `description` file contents after `CreateRepository`, `none` when
creation failed. -/
def descriptionAfterCreate (fs : FS) (dir : FilePath') : Option (List Nat) :=
  match CreateRepository fs dir with
  | .ok (r, fs1) => getFile fs1 (r.gitdir ++ [descriptionC])
  | .err _ => none

/-- C4 (failing input evaluated): creating a repository at a path whose
`.git` directory already exists does not fail with AlreadyExists — because
`os.MkdirAll` returns success for an existing directory, the
`errors.Is(err, os.ErrExist)` branch never fires — and it overwrites the
existing `description` file with the default content. -/
theorem CreateRepository_existing_gitdir_overwrites :
    CreateRepository fsExistingRepo [rComp] ≠ .err .alreadyExists ∧
    descriptionAfterCreate fsExistingRepo [rComp] = some defaultDescriptionB ∧
    getFile fsExistingRepo [rComp, gitC, descriptionC] = some oldDescB ∧
    oldDescB ≠ defaultDescriptionB := by
  refine ⟨by decide, by decide, by decide, by decide⟩

theorem findRepositoryAux_root_loops (fuel : Nat) :
    findRepositoryAux ⟨[], []⟩ fuel [] = none := by
  induction fuel with
  | zero => rfl
  | succ f ih =>
    rw [findRepositoryAux, if_neg (by decide), if_neg (by decide)]
    exact ih

/-- C5 (failing input evaluated): on a filesystem with no `.git` directory
anywhere, `FindRepository` started at the absolute path `/a` never
terminates — no fuel suffices — because the loop's guard compares the
path against `"."` while `filepath.Dir` keeps an absolute path absolute
(`Dir("/") = "/"`), so NotFound is never returned. -/
theorem FindRepository_no_gitdir_never_terminates (fuel : Nat) :
    findRepositoryAux ⟨[], []⟩ fuel [[97]] = none := by
  cases fuel with
  | zero => rfl
  | succ f =>
    rw [findRepositoryAux, if_neg (by decide), if_neg (by decide)]
    exact findRepositoryAux_root_loops f

/-- Identifier under which the subtree object is stored in the C9 scenario. -/
def shaSubtree : List Nat := List.replicate 20 1

/-- Identifier referenced by the subtree's leaf; absent from the store. -/
def shaAbsent : List Nat := List.replicate 20 2

/-- The subtree: one leaf `"b"` pointing at the absent identifier. -/
def innerLeafs : List TreeLeaf := [⟨493, [98], shaAbsent⟩]

/-- Store holding only the subtree object (as a framed `"tree"` object). -/
def storeMissingInner : Store :=
  [(shaSubtree, frameBytes treeK (treeObjectSerialize innerLeafs))]

/-- The top-level tree: one leaf `"sub"` pointing at the subtree object. -/
def outerLeafs : List TreeLeaf := [⟨16384, [115, 117, 98], shaSubtree⟩]

/-- Destination directory `/out` for the C9 scenario. -/
def outDir : FilePath' := [[111, 117, 116]]

/-- C9 (failing input evaluated): checking out the outer tree reports
success even though materializing its subtree fails — reading the
subtree's leaf object fails with NotFound, and checking out the subtree
directly surfaces that error, but the outer call discards the recursive
call's error (cmd.go line 212). -/
theorem treeCheckout_swallows_subtree_error :
    (treeCheckoutAux storeMissingInner 10 outerLeafs outDir ⟨[outDir], []⟩).2 = .okC ∧
    (treeCheckoutAux storeMissingInner 10 innerLeafs (outDir ++ [[115, 117, 98]])
        ⟨[outDir], []⟩).2 = .errC .notFound ∧
    ReadObject storeMissingInner shaAbsent = .err .notFound := by
  refine ⟨by decide, by decide, by decide⟩

end GoGit
